import Mathlib

/-!
Shallow embedding of the llm-cli session & context management subsystem
(src/core/chat_manager.py, src/core/api_client.py, src/main.py,
src/config/config.py) and proofs about it.

Python dicts are modelled as insertion-ordered association lists with unique
keys (`d[k] = v` replaces in place when the key exists, otherwise appends;
`del d[k]` removes the entry).  Timestamps generated by `datetime.now()` are
passed in as explicit string parameters.  Console output is dropped; where an
operation's observable effect includes reporting an error or calling
`save_history`, the model returns an explicit result flag.
-/

namespace LLMCLI

/-- `MAX_CONTEXT_MESSAGES` from src/config/config.py. -/
def MAX_CONTEXT_MESSAGES : Nat := 20

/-- `MAX_HISTORY_MESSAGES` from src/config/config.py. -/
def MAX_HISTORY_MESSAGES : Nat := 1000

/-- A chat message as stored by `ChatManager.add_message`:
`{"role": ..., "content": ..., "timestamp": ...}`. -/
structure Message where
  role : String
  content : String
  timestamp : String
deriving DecidableEq, Repr

/-- A message stripped for the API: `{"role": ..., "content": ...}`. -/
structure APIMessage where
  role : String
  content : String
deriving DecidableEq, Repr

/-- The `self.sessions` dict: session name → ordered message list,
as an insertion-ordered association list with unique keys. -/
abbrev Sessions := List (String × List Message)

/-- Python `d[k] = v` on a dict: replace the value in place when the key is
present (its position is kept), otherwise append the new binding at the end. -/
def dictSet (d : Sessions) (k : String) (v : List Message) : Sessions :=
  if (d.lookup k).isSome then
    d.map (fun p => if p.1 = k then (k, v) else p)
  else
    d ++ [(k, v)]

/-- Python `del d[k]` / `d.pop(k)` effect on the entries: the entry with key
`k` is removed, all other entries keep their order. -/
def dictDel (d : Sessions) (k : String) : Sessions :=
  d.filter (fun p => p.1 != k)

/-- The `ChatManager` state: `self.sessions` and `self.current_session`. -/
structure ChatManager where
  sessions : Sessions
  current_session : String
deriving DecidableEq, Repr

/-- `ChatManager._trim_history` restricted to one session's list (the method
only ever touches the current session): if the length exceeds
`MAX_HISTORY_MESSAGES * 2`, keep the last `MAX_HISTORY_MESSAGES` messages
(Python `l[-MAX_HISTORY_MESSAGES:]`). -/
def trim_history (h : List Message) : List Message :=
  if h.length > MAX_HISTORY_MESSAGES * 2 then
    h.drop (h.length - MAX_HISTORY_MESSAGES)
  else
    h

/-- `ChatManager.add_message` on a single session history: append the message
built from role, content and the generated timestamp, then trim. -/
def addMessage (h : List Message) (role content timestamp : String) : List Message :=
  trim_history (h ++ [⟨role, content, timestamp⟩])

/-- `ChatManager.add_message` on the full state.  Python
`self.sessions[self.current_session].append(...)` raises `KeyError` when the
current session is not a key; that path is `none`. -/
def ChatManager.add_message (cm : ChatManager) (role content timestamp : String) :
    Option ChatManager :=
  match cm.sessions.lookup cm.current_session with
  | none => none
  | some h =>
      some { cm with
        sessions := dictSet cm.sessions cm.current_session (addMessage h role content timestamp) }

/-- The `{"role": msg["role"], "content": msg["content"]}` projection used by
`get_context` and `get_messages_for_api`. -/
def stripTimestamp (m : Message) : APIMessage :=
  ⟨m.role, m.content⟩

/-- `ChatManager.get_context` on one session history: the last
`MAX_CONTEXT_MESSAGES` messages (Python `l[-MAX_CONTEXT_MESSAGES:]`), each
stripped to role and content.  A pure query: it takes the stored history and
returns a fresh list, leaving the state untouched. -/
def get_context (h : List Message) : List APIMessage :=
  (h.drop (h.length - MAX_CONTEXT_MESSAGES)).map stripTimestamp

/-- `ChatManager.clear_history`: reset the current session to `[]` and call
`save_history` (the returned flag records that a save happened). -/
def ChatManager.clear_history (cm : ChatManager) : ChatManager × Bool :=
  ({ cm with sessions := dictSet cm.sessions cm.current_session [] }, true)

/-- `ChatManager.switch_session`: create the session empty when absent, then
make it current. -/
def ChatManager.switch_session (cm : ChatManager) (session_name : String) : ChatManager :=
  let sessions' :=
    if (cm.sessions.lookup session_name).isSome then cm.sessions
    else cm.sessions ++ [(session_name, [])]
  { sessions := sessions', current_session := session_name }

/-- Outcome reported by the session-management operations (the Python code
prints a red error message and returns in the failure branches). -/
inductive OpResult where
  | ok
  | notFound
  | cannotDeleteCurrent
  | conflict
deriving DecidableEq, Repr

/-- `ChatManager.delete_session`: not-found and current-session checks in
source order; on success the entry is removed and `save_history` runs.
Returns (new state, outcome, whether save_history was called). -/
def ChatManager.delete_session (cm : ChatManager) (session_name : String) :
    ChatManager × OpResult × Bool :=
  if (cm.sessions.lookup session_name).isNone then
    (cm, .notFound, false)
  else if session_name = cm.current_session then
    (cm, .cannotDeleteCurrent, false)
  else
    ({ cm with sessions := dictDel cm.sessions session_name }, .ok, true)

/-- `ChatManager.rename_session`: old-name and new-name checks in source
order; on success `sessions[new] = sessions.pop(old)` re-keys the entry
(removing `old`, appending under `new`), the `current_session` pointer is
updated when it referenced `old`, and `save_history` runs. -/
def ChatManager.rename_session (cm : ChatManager) (old_name new_name : String) :
    ChatManager × OpResult × Bool :=
  if (cm.sessions.lookup old_name).isNone then
    (cm, .notFound, false)
  else if (cm.sessions.lookup new_name).isSome then
    (cm, .conflict, false)
  else
    let msgs := (cm.sessions.lookup old_name).getD []
    ({ sessions := dictSet (dictDel cm.sessions old_name) new_name msgs,
       current_session := if cm.current_session = old_name then new_name
                          else cm.current_session },
     .ok, true)

/-- The state of the history file as seen by `load_history`:
`none` = the file does not exist; `some none` = the file exists but reading
or JSON-parsing it fails (`IOError` / `json.JSONDecodeError`);
`some (some s)` = the file exists and parses to the mapping `s`. -/
abbrev FileState := Option (Option Sessions)

/-- `ChatManager.load_history`: starting from the current `self.sessions`
value, overwrite it with the parsed document when the file exists and parses,
fall back to `{"default": []}` on a read or parse failure, and leave it
untouched when the file is missing.  All failure paths are caught, so the
function is total — it never raises to the caller. -/
def load_history (current : Sessions) (file : FileState) : Sessions :=
  match file with
  | none => current
  | some none => [("default", [])]
  | some (some s) => s

/-- `ChatManager.__init__`: `self.sessions = {}`, then `load_history()`, then
a fresh session named after the current timestamp is created and made
current. -/
def ChatManager.construct (file : FileState) (new_session_name : String) : ChatManager :=
  let loaded := load_history [] file
  { sessions := dictSet loaded new_session_name [],
    current_session := new_session_name }

/-- One event of the streaming response iterated by
`LLMClient._handle_stream`: a chunk whose `delta.content` is a string or
`None`, or an exception raised by the iteration. -/
inductive StreamEvent where
  | chunk (content : Option String)
  | failure
deriving DecidableEq, Repr

/-- The loop body of `LLMClient._handle_stream`: starting from the
accumulated `full_response`, consume events in order, appending each
non-`None` chunk content (and forwarding it to the console).  An exception
aborts the iteration, is caught, reported (`true` in the second component)
and the accumulated text is returned. -/
def handleStreamFrom (acc : String) : List StreamEvent → String × Bool
  | [] => (acc, false)
  | StreamEvent.chunk none :: rest => handleStreamFrom acc rest
  | StreamEvent.chunk (some c) :: rest => handleStreamFrom (acc ++ c) rest
  | StreamEvent.failure :: _ => (acc, true)

/-- `LLMClient._handle_stream`: `full_response = ""`, then the loop.  The
result is (returned text, whether a stream error was caught and reported).
Note the exception is swallowed inside this method: `chat` returns the
partial text normally. -/
def handle_stream (events : List StreamEvent) : String × Bool :=
  handleStreamFrom "" events

/-- The event list of a stream that yields the fragments `frags` and then
raises, with `rest` the never-consumed remainder of the iterator. -/
def midStreamFailure (frags : List String) (rest : List StreamEvent) : List StreamEvent :=
  frags.map (fun c => StreamEvent.chunk (some c)) ++ StreamEvent.failure :: rest

/-- `LLMCLIApp.send_message`, success path in non-streaming mode (the remote
call returned `response`): append the user message, append the assistant
message, then auto-save iff the current session's length is divisible by 4.
Returns (new state, whether save_history was called); `none` models a
`KeyError` on a broken state. -/
def send_message_success (cm : ChatManager) (user_input response t1 t2 : String) :
    Option (ChatManager × Bool) :=
  match cm.add_message "user" user_input t1 with
  | none => none
  | some cm1 =>
      match cm1.add_message "assistant" response t2 with
      | none => none
      | some cm2 =>
          some (cm2, ((cm2.sessions.lookup cm2.current_session).getD []).length % 4 == 0)

/-- `LLMCLIApp.send_message` in streaming mode where the stream is `events`:
append the user message, run `_handle_stream` (which swallows mid-stream
errors and returns the partial text), append the assistant message with the
returned text, then auto-save iff the session length is divisible by 4.
Returns (new state, whether a stream error was reported, whether
save_history was called). -/
def send_message_streaming (cm : ChatManager) (user_input : String)
    (events : List StreamEvent) (t1 t2 : String) :
    Option (ChatManager × Bool × Bool) :=
  match cm.add_message "user" user_input t1 with
  | none => none
  | some cm1 =>
      match cm1.add_message "assistant" (handle_stream events).1 t2 with
      | none => none
      | some cm2 =>
          some (cm2, (handle_stream events).2,
                ((cm2.sessions.lookup cm2.current_session).getD []).length % 4 == 0)

/-- A JSON value, as produced by `json.dump` / parsed by `json.load`.
With `ensure_ascii=False` and UTF-8 file encoding, Python strings are
serialized losslessly, so strings are modelled as arbitrary (Unicode)
strings. -/
inductive Json where
  | null
  | bool (b : Bool)
  | num (n : Int)
  | str (s : String)
  | arr (elems : List Json)
  | obj (fields : List (String × Json))
deriving Repr

/-- `json.dump` of one stored message dict. -/
def encodeMessage (m : Message) : Json :=
  .obj [("role", .str m.role), ("content", .str m.content), ("timestamp", .str m.timestamp)]

/-- `json.dump` of `self.sessions` in `save_history`: a JSON object mapping
each session name to the array of its encoded messages, keys in insertion
order. -/
def encodeSessions (s : Sessions) : Json :=
  .obj (s.map (fun p => (p.1, .arr (p.2.map encodeMessage))))

/-- Reading one message record back from the parsed document. -/
def decodeMessage : Json → Option Message
  | .obj [("role", .str r), ("content", .str c), ("timestamp", .str t)] =>
      some ⟨r, c, t⟩
  | _ => none

/-- Reading a session's message array back from the parsed document. -/
def decodeMessageList : List Json → Option (List Message)
  | [] => some []
  | j :: js =>
      match decodeMessage j, decodeMessageList js with
      | some m, some ms => some (m :: ms)
      | _, _ => none

/-- Reading the object fields back into the sessions mapping. -/
def decodeFields : List (String × Json) → Option Sessions
  | [] => some []
  | (k, .arr es) :: fs =>
      match decodeMessageList es, decodeFields fs with
      | some ms, some s => some ((k, ms) :: s)
      | _, _ => none
  | _ => none

/-- `json.load` of the persisted document, interpreted as the sessions
mapping (the Python code trusts the parsed shape; the decoder makes that
shape explicit). -/
def decodeSessions : Json → Option Sessions
  | .obj fields => decodeFields fields
  | _ => none

/-- A run of `add_message` calls on one session, starting from a fresh empty
session: fold `addMessage` (append + trim) over the messages in order. -/
def appendAll (ms : List Message) : List Message :=
  ms.foldl (fun h m => addMessage h m.role m.content m.timestamp) []

/-- The Session Store invariant: `current_session` refers to an existing key
of `sessions`. -/
def Inv (cm : ChatManager) : Prop :=
  (cm.sessions.lookup cm.current_session).isSome = true

/-! ### Association-list (Python dict) lemmas -/

theorem lookup_cons_self (k : String) (b : List Message) (t : Sessions) :
    List.lookup k ((k, b) :: t) = some b := by
  simp [List.lookup]

theorem lookup_cons_ne (a k : String) (b : List Message) (t : Sessions) (h : a ≠ k) :
    List.lookup k ((a, b) :: t) = List.lookup k t := by
  have hb : (k == a) = false := beq_eq_false_iff_ne.mpr (Ne.symm h)
  simp [List.lookup, hb]

theorem lookup_map_replace (d : Sessions) (k : String) (v : List Message)
    (h : (d.lookup k).isSome) :
    (d.map (fun p => if p.1 = k then (k, v) else p)).lookup k = some v := by
  induction d with
  | nil => simp [List.lookup] at h
  | cons p t ih =>
    obtain ⟨a, b⟩ := p
    rw [List.map_cons]
    by_cases hak : a = k
    · have hhead : (if (a, b).1 = k then (k, v) else (a, b)) = (k, v) := by simp [hak]
      rw [hhead, lookup_cons_self]
    · have hhead : (if (a, b).1 = k then (k, v) else (a, b)) = (a, b) := by simp [hak]
      have h' : (t.lookup k).isSome := by
        rwa [lookup_cons_ne a k b t hak] at h
      rw [hhead, lookup_cons_ne a k b _ hak]
      exact ih h'

theorem lookup_map_replace_ne (d : Sessions) (k k' : String) (v : List Message)
    (h : k' ≠ k) :
    (d.map (fun p => if p.1 = k then (k, v) else p)).lookup k' = d.lookup k' := by
  induction d with
  | nil => simp
  | cons p t ih =>
    obtain ⟨a, b⟩ := p
    rw [List.map_cons]
    by_cases hak : a = k
    · have hhead : (if (a, b).1 = k then (k, v) else (a, b)) = (k, v) := by simp [hak]
      have hka : a ≠ k' := by rw [hak]; exact Ne.symm h
      rw [hhead, lookup_cons_ne k k' v _ (Ne.symm h), lookup_cons_ne a k' b t hka]
      exact ih
    · have hhead : (if (a, b).1 = k then (k, v) else (a, b)) = (a, b) := by simp [hak]
      rw [hhead]
      by_cases hka : a = k'
      · subst hka
        rw [lookup_cons_self, lookup_cons_self]
      · rw [lookup_cons_ne a k' b _ hka, lookup_cons_ne a k' b t hka]
        exact ih

theorem lookup_append_new (d : Sessions) (k : String) (v : List Message)
    (h : d.lookup k = none) :
    ((d ++ [(k, v)]).lookup k) = some v := by
  induction d with
  | nil => simp [lookup_cons_self k v []]
  | cons p t ih =>
    obtain ⟨a, b⟩ := p
    by_cases hak : a = k
    · rw [hak, lookup_cons_self] at h
      exact absurd h (by simp)
    · rw [List.cons_append, lookup_cons_ne a k b _ hak]
      exact ih (by rwa [lookup_cons_ne a k b t hak] at h)

theorem lookup_append_single_ne (d : Sessions) (k k' : String) (v : List Message)
    (h : k' ≠ k) :
    ((d ++ [(k, v)]).lookup k') = d.lookup k' := by
  induction d with
  | nil => simpa using lookup_cons_ne k k' v [] (Ne.symm h)
  | cons p t ih =>
    obtain ⟨a, b⟩ := p
    by_cases hka : a = k'
    · subst hka
      rw [List.cons_append, lookup_cons_self, lookup_cons_self]
    · rw [List.cons_append, lookup_cons_ne a k' b _ hka, lookup_cons_ne a k' b t hka]
      exact ih

theorem lookup_dictSet_self (d : Sessions) (k : String) (v : List Message) :
    (dictSet d k v).lookup k = some v := by
  unfold dictSet
  split
  next h => exact lookup_map_replace d k v h
  next h => exact lookup_append_new d k v (Option.not_isSome_iff_eq_none.mp (by simpa using h))

theorem lookup_dictSet_ne (d : Sessions) (k k' : String) (v : List Message)
    (h : k' ≠ k) :
    (dictSet d k v).lookup k' = d.lookup k' := by
  unfold dictSet
  split
  · exact lookup_map_replace_ne d k k' v h
  · exact lookup_append_single_ne d k k' v h

theorem lookup_dictDel_self (d : Sessions) (k : String) :
    (dictDel d k).lookup k = none := by
  unfold dictDel
  induction d with
  | nil => simp
  | cons p t ih =>
    obtain ⟨a, b⟩ := p
    by_cases hak : a = k
    · have hhead : List.filter (fun p => p.1 != k) ((a, b) :: t) =
          List.filter (fun p => p.1 != k) t := by
        simp [List.filter_cons, hak]
      rw [hhead]
      exact ih
    · have hne : ((a, b).1 != k) = true := bne_iff_ne.mpr hak
      have hhead : List.filter (fun p => p.1 != k) ((a, b) :: t) =
          (a, b) :: List.filter (fun p => p.1 != k) t := by
        simp [List.filter_cons, hne]
      rw [hhead, lookup_cons_ne a k b _ hak]
      exact ih

theorem lookup_dictDel_ne (d : Sessions) (k k' : String) (h : k' ≠ k) :
    (dictDel d k).lookup k' = d.lookup k' := by
  unfold dictDel
  induction d with
  | nil => simp
  | cons p t ih =>
    obtain ⟨a, b⟩ := p
    by_cases hak : a = k
    · have hhead : List.filter (fun p => p.1 != k) ((a, b) :: t) =
          List.filter (fun p => p.1 != k) t := by
        simp [List.filter_cons, hak]
      have hka : a ≠ k' := fun hc => h (hc ▸ hak)
      rw [hhead, lookup_cons_ne a k' b t hka]
      exact ih
    · have hne : ((a, b).1 != k) = true := bne_iff_ne.mpr hak
      have hhead : List.filter (fun p => p.1 != k) ((a, b) :: t) =
          (a, b) :: List.filter (fun p => p.1 != k) t := by
        simp [List.filter_cons, hne]
      rw [hhead]
      by_cases hka : a = k'
      · subst hka
        rw [lookup_cons_self, lookup_cons_self]
      · rw [lookup_cons_ne a k' b _ hka, lookup_cons_ne a k' b t hka]
        exact ih

theorem isNone_eq_false_of_isSome (o : Option (List Message)) (h : o.isSome = true) :
    o.isNone = false := by
  cases o
  · simp at h
  · rfl

/-! ### Claim theorems -/

/-- C3: for every current-session history, `get_context` returns the suffix
of length `min N MAX_CONTEXT_MESSAGES` in oldest-first order, each element
reduced to exactly its role and content fields; it is a pure function of the
stored history (so the history is not modified and repeated calls without
intervening appends return identical output). -/
theorem get_context_spec (hist : List Message) :
    (get_context hist).length = min hist.length MAX_CONTEXT_MESSAGES
    ∧ get_context hist = (hist.map stripTimestamp).drop (hist.length - MAX_CONTEXT_MESSAGES)
    ∧ (hist.map stripTimestamp).take (hist.length - MAX_CONTEXT_MESSAGES) ++ get_context hist
        = hist.map stripTimestamp := by
  refine ⟨?_, ?_, ?_⟩
  · unfold get_context
    rw [List.length_map, List.length_drop]
    omega
  · unfold get_context
    rw [List.map_drop]
  · unfold get_context
    rw [List.map_drop, List.take_append_drop]

/-- C7: `load_history` is total, never raising to the caller: with the
initial empty `self.sessions`, a missing history file leaves the mapping
empty, a file whose read or parse fails reports the error and yields the
single fallback mapping `{"default": []}`, and a well-formed file yields its
parsed mapping. -/
theorem load_history_spec :
    load_history [] none = []
    ∧ load_history [] (some none) = [("default", [])]
    ∧ ∀ s : Sessions, load_history [] (some (some s)) = s :=
  ⟨rfl, rfl, fun _ => rfl⟩

/-- C10: for an existing session name `x`, `rename_session x x` is rejected
by the new-name-exists check (which does not exempt `old = new`): the state
is returned unchanged with a conflict outcome and no save is performed. -/
theorem rename_session_self_conflict (cm : ChatManager) (x : String)
    (h : (cm.sessions.lookup x).isSome = true) :
    cm.rename_session x x = (cm, OpResult.conflict, false) := by
  have h1 : (cm.sessions.lookup x).isNone = false :=
    isNone_eq_false_of_isSome _ h
  unfold ChatManager.rename_session
  rw [if_neg (by simp [h1]), if_pos h]

/-- Witness for C10 at a concrete state. -/
theorem rename_session_self_conflict_witness :
    (ChatManager.mk [("a", [])] "a").rename_session "a" "a"
      = (ChatManager.mk [("a", [])] "a", OpResult.conflict, false) :=
  rename_session_self_conflict (ChatManager.mk [("a", [])] "a") "a" (by decide)

/-- C5: `delete_session` fails on a missing name and fails on the active
session, in both cases returning the state completely unchanged with no
save; on an existing non-active name it removes exactly that entry (the
current-session pointer and every other session's entry are unchanged) and
calls `save_history`. -/
theorem delete_session_spec (cm : ChatManager) (name : String) :
    ((cm.sessions.lookup name).isNone = true →
        cm.delete_session name = (cm, OpResult.notFound, false))
    ∧ ((cm.sessions.lookup name).isSome = true → name = cm.current_session →
        cm.delete_session name = (cm, OpResult.cannotDeleteCurrent, false))
    ∧ ((cm.sessions.lookup name).isSome = true → name ≠ cm.current_session →
        (cm.delete_session name).1.current_session = cm.current_session
        ∧ (cm.delete_session name).1.sessions.lookup name = none
        ∧ (∀ k, k ≠ name →
            (cm.delete_session name).1.sessions.lookup k = cm.sessions.lookup k)
        ∧ (cm.delete_session name).2 = (OpResult.ok, true)) := by
  refine ⟨?_, ?_, ?_⟩
  · intro h
    unfold ChatManager.delete_session
    rw [if_pos h]
  · intro h hcur
    have h1 : (cm.sessions.lookup name).isNone = false :=
      isNone_eq_false_of_isSome _ h
    unfold ChatManager.delete_session
    rw [if_neg (by simp [h1]), if_pos hcur]
  · intro h hcur
    have h1 : (cm.sessions.lookup name).isNone = false :=
      isNone_eq_false_of_isSome _ h
    unfold ChatManager.delete_session
    rw [if_neg (by simp [h1]), if_neg hcur]
    exact ⟨rfl, lookup_dictDel_self cm.sessions name,
      fun k hk => lookup_dictDel_ne cm.sessions name k hk, rfl⟩

/-- Witness for C5 at a concrete state: deleting the non-active session "b"
removes it, keeps the pointer, and saves. -/
theorem delete_session_spec_witness :
    ((ChatManager.mk [("a", []), ("b", [])] "a").delete_session "b").1.sessions.lookup "b" = none
    ∧ ((ChatManager.mk [("a", []), ("b", [])] "a").delete_session "b").1.current_session = "a"
    ∧ ((ChatManager.mk [("a", []), ("b", [])] "a").delete_session "b").2
        = (OpResult.ok, true) := by
  have h := (delete_session_spec (ChatManager.mk [("a", []), ("b", [])] "a") "b").2.2
    (by decide) (by decide)
  exact ⟨h.2.1, h.1, h.2.2.2⟩

/-- C6: `rename_session` fails with a not-found outcome when `old_name` is
absent and with a conflict outcome when `new_name` is present, mutating
nothing in either case; otherwise it re-keys the session under `new_name`
with its full message list preserved, leaves every other entry unchanged,
updates `current_session` to `new_name` exactly when it was `old_name`, and
calls `save_history`. -/
theorem rename_session_spec (cm : ChatManager) (old_name new_name : String) :
    ((cm.sessions.lookup old_name).isNone = true →
        cm.rename_session old_name new_name = (cm, OpResult.notFound, false))
    ∧ ((cm.sessions.lookup old_name).isSome = true →
        (cm.sessions.lookup new_name).isSome = true →
        cm.rename_session old_name new_name = (cm, OpResult.conflict, false))
    ∧ ((cm.sessions.lookup old_name).isSome = true →
        cm.sessions.lookup new_name = none →
        (cm.rename_session old_name new_name).1.sessions.lookup new_name
            = cm.sessions.lookup old_name
        ∧ (cm.rename_session old_name new_name).1.sessions.lookup old_name = none
        ∧ (∀ k, k ≠ old_name → k ≠ new_name →
            (cm.rename_session old_name new_name).1.sessions.lookup k = cm.sessions.lookup k)
        ∧ (cm.current_session = old_name →
            (cm.rename_session old_name new_name).1.current_session = new_name)
        ∧ (cm.current_session ≠ old_name →
            (cm.rename_session old_name new_name).1.current_session = cm.current_session)
        ∧ (cm.rename_session old_name new_name).2 = (OpResult.ok, true)) := by
  refine ⟨?_, ?_, ?_⟩
  · intro h
    unfold ChatManager.rename_session
    rw [if_pos h]
  · intro h hnew
    have h1 : (cm.sessions.lookup old_name).isNone = false :=
      isNone_eq_false_of_isSome _ h
    unfold ChatManager.rename_session
    rw [if_neg (by simp [h1]), if_pos hnew]
  · intro h hnew
    have h1 : (cm.sessions.lookup old_name).isNone = false :=
      isNone_eq_false_of_isSome _ h
    have h2 : (cm.sessions.lookup new_name).isSome = false := by
      rw [hnew]; rfl
    have hne : old_name ≠ new_name := by
      intro hc
      rw [hc, hnew] at h
      exact absurd h (by simp)
    obtain ⟨ms, hms⟩ := Option.isSome_iff_exists.mp h
    unfold ChatManager.rename_session
    rw [if_neg (by simp [h1]), if_neg (by simp [h2])]
    refine ⟨?_, ?_, ?_, ?_, ?_, rfl⟩
    · rw [lookup_dictSet_self, hms]
      simp
    · rw [lookup_dictSet_ne _ _ _ _ hne, lookup_dictDel_self]
    · intro k hko hkn
      rw [lookup_dictSet_ne _ _ _ _ hkn, lookup_dictDel_ne _ _ _ hko]
    · intro hc
      show (if cm.current_session = old_name then new_name else cm.current_session) = new_name
      rw [if_pos hc]
    · intro hc
      show (if cm.current_session = old_name then new_name else cm.current_session)
          = cm.current_session
      rw [if_neg hc]

/-- Witness for C6 at a concrete state: renaming the active session "a" to
the fresh name "c" keeps its messages under the new key and moves the
pointer. -/
theorem rename_session_spec_witness :
    ((ChatManager.mk [("a", [Message.mk "user" "hi" "t"])] "a").rename_session "a" "c").1.sessions.lookup "c"
        = some [Message.mk "user" "hi" "t"]
    ∧ ((ChatManager.mk [("a", [Message.mk "user" "hi" "t"])] "a").rename_session "a" "c").1.current_session
        = "c" := by
  have h := (rename_session_spec (ChatManager.mk [("a", [Message.mk "user" "hi" "t"])] "a") "a" "c").2.2
    (by decide) (by decide)
  exact ⟨h.1, h.2.2.2.1 rfl⟩

/-- C8: the invariant that `current_session` refers to an existing key of
`sessions` holds after construction and is preserved by every operation of
the Chat Session Manager: `add_message`, `clear_history`, `switch_session`,
`delete_session` and `rename_session`. -/
theorem invariant_preserved :
    (∀ (file : FileState) (name : String), Inv (ChatManager.construct file name))
    ∧ (∀ (cm : ChatManager) (r c t : String) (cm' : ChatManager),
        Inv cm → cm.add_message r c t = some cm' → Inv cm')
    ∧ (∀ cm : ChatManager, Inv cm → Inv (cm.clear_history).1)
    ∧ (∀ (cm : ChatManager) (n : String), Inv cm → Inv (cm.switch_session n))
    ∧ (∀ (cm : ChatManager) (n : String), Inv cm → Inv (cm.delete_session n).1)
    ∧ (∀ (cm : ChatManager) (o n : String), Inv cm → Inv (cm.rename_session o n).1) := by
  refine ⟨?_, ?_, ?_, ?_, ?_, ?_⟩
  · intro file name
    unfold ChatManager.construct Inv
    rw [lookup_dictSet_self]
    rfl
  · intro cm r c t cm' _hinv hadd
    unfold ChatManager.add_message at hadd
    cases hl : cm.sessions.lookup cm.current_session with
    | none =>
      rw [hl] at hadd
      exact absurd hadd (by simp)
    | some h0 =>
      rw [hl] at hadd
      simp only [Option.some.injEq] at hadd
      rw [← hadd]
      unfold Inv
      rw [lookup_dictSet_self]
      rfl
  · intro cm _hinv
    unfold ChatManager.clear_history Inv
    rw [lookup_dictSet_self]
    rfl
  · intro cm n _hinv
    unfold ChatManager.switch_session Inv
    dsimp only
    split
    next hs => exact hs
    next hs =>
      rw [lookup_append_new cm.sessions n []
        (Option.not_isSome_iff_eq_none.mp (by simpa using hs))]
      rfl
  · intro cm n hinv
    by_cases h1 : (cm.sessions.lookup n).isNone = true
    · unfold ChatManager.delete_session
      rw [if_pos h1]
      exact hinv
    · by_cases h2 : n = cm.current_session
      · unfold ChatManager.delete_session
        rw [if_neg h1, if_pos h2]
        exact hinv
      · unfold ChatManager.delete_session
        rw [if_neg h1, if_neg h2]
        unfold Inv
        show ((dictDel cm.sessions n).lookup cm.current_session).isSome = true
        rw [lookup_dictDel_ne cm.sessions n cm.current_session (fun hc => h2 hc.symm)]
        exact hinv
  · intro cm o n hinv
    by_cases h1 : (cm.sessions.lookup o).isNone = true
    · unfold ChatManager.rename_session
      rw [if_pos h1]
      exact hinv
    · by_cases h2 : (cm.sessions.lookup n).isSome = true
      · unfold ChatManager.rename_session
        rw [if_neg h1, if_pos h2]
        exact hinv
      · unfold ChatManager.rename_session
        rw [if_neg h1, if_neg h2]
        unfold Inv
        show ((dictSet (dictDel cm.sessions o) n ((cm.sessions.lookup o).getD [])).lookup
            (if cm.current_session = o then n else cm.current_session)).isSome = true
        by_cases hco : cm.current_session = o
        · rw [if_pos hco, lookup_dictSet_self]
          rfl
        · rw [if_neg hco]
          by_cases hcn : cm.current_session = n
          · rw [hcn, lookup_dictSet_self]
            rfl
          · rw [lookup_dictSet_ne _ _ _ _ hcn, lookup_dictDel_ne _ _ _ hco]
            exact hinv

/-- Witness for C8 at a concrete state: switching to a fresh session keeps
the invariant. -/
theorem invariant_preserved_witness :
    Inv ((ChatManager.mk [("a", [])] "a").switch_session "b") :=
  invariant_preserved.2.2.2.1 (ChatManager.mk [("a", [])] "a") "b" (by rfl)

/-! ### Trimming lemmas (C2) -/

theorem trim_history_of_gt (l : List Message)
    (hgt : 2 * MAX_HISTORY_MESSAGES < l.length) :
    trim_history l = l.drop (l.length - MAX_HISTORY_MESSAGES)
    ∧ (trim_history l).length = MAX_HISTORY_MESSAGES := by
  unfold trim_history
  rw [if_pos (by omega)]
  refine ⟨rfl, ?_⟩
  rw [List.length_drop]
  omega

theorem trim_history_of_le (l : List Message)
    (hle : l.length ≤ 2 * MAX_HISTORY_MESSAGES) :
    trim_history l = l := by
  unfold trim_history
  rw [if_neg (by omega)]

theorem addMessage_of_gt (h : List Message) (r c t : String)
    (hgt : 2 * MAX_HISTORY_MESSAGES < h.length + 1) :
    addMessage h r c t
      = (h ++ [(⟨r, c, t⟩ : Message)]).drop (h.length + 1 - MAX_HISTORY_MESSAGES)
    ∧ (addMessage h r c t).length = MAX_HISTORY_MESSAGES := by
  have hlen : (h ++ [(⟨r, c, t⟩ : Message)]).length = h.length + 1 := by simp
  unfold addMessage
  obtain ⟨e1, e2⟩ := trim_history_of_gt (h ++ [⟨r, c, t⟩]) (by rw [hlen]; omega)
  rw [hlen] at e1
  exact ⟨e1, e2⟩

theorem addMessage_of_le (h : List Message) (r c t : String)
    (hle : h.length + 1 ≤ 2 * MAX_HISTORY_MESSAGES) :
    addMessage h r c t = h ++ [(⟨r, c, t⟩ : Message)] := by
  have hlen : (h ++ [(⟨r, c, t⟩ : Message)]).length = h.length + 1 := by simp
  unfold addMessage
  exact trim_history_of_le _ (by rw [hlen]; omega)

theorem appendAll_append (l : List Message) (m : Message) :
    appendAll (l ++ [m]) = addMessage (appendAll l) m.role m.content m.timestamp := by
  unfold appendAll
  rw [List.foldl_append]
  rfl

theorem appendAll_length_of_le (ms : List Message)
    (h : ms.length ≤ 2 * MAX_HISTORY_MESSAGES) :
    (appendAll ms).length = ms.length := by
  induction ms using List.reverseRecOn with
  | nil => rfl
  | append_singleton l m ih =>
    have hl1 : (l ++ [m]).length = l.length + 1 := by simp
    rw [hl1] at h
    have hl : l.length ≤ 2 * MAX_HISTORY_MESSAGES := by omega
    rw [appendAll_append, addMessage_of_le _ _ _ _ (by rw [ih hl]; omega), hl1]
    simp [ih hl]

/-- C2: after each `add_message`, if the session length (with the new
message) exceeds `2 * MAX_HISTORY_MESSAGES` the session is truncated to
exactly the most recent `MAX_HISTORY_MESSAGES` messages in their original
order, and otherwise the append stands untouched; consequently after the
`N`-th append of a run started from an empty session, with
`N > 2 * MAX_HISTORY_MESSAGES` and the trim just triggered, the stored
length equals `min N MAX_HISTORY_MESSAGES`. -/
theorem add_message_trim_spec :
    (∀ (h : List Message) (r c t : String),
        (2 * MAX_HISTORY_MESSAGES < h.length + 1 →
            addMessage h r c t
              = (h ++ [(⟨r, c, t⟩ : Message)]).drop (h.length + 1 - MAX_HISTORY_MESSAGES)
            ∧ (addMessage h r c t).length = MAX_HISTORY_MESSAGES)
        ∧ (h.length + 1 ≤ 2 * MAX_HISTORY_MESSAGES →
            addMessage h r c t = h ++ [(⟨r, c, t⟩ : Message)]))
    ∧ (∀ (ms : List Message) (N : Nat), N ≤ ms.length → 2 * MAX_HISTORY_MESSAGES < N →
        2 * MAX_HISTORY_MESSAGES < (appendAll (ms.take (N - 1))).length + 1 →
        (appendAll (ms.take N)).length = min N MAX_HISTORY_MESSAGES) := by
  constructor
  · intro h r c t
    exact ⟨fun hgt => addMessage_of_gt h r c t hgt, fun hle => addMessage_of_le h r c t hle⟩
  · intro ms N hNle hNgt htrig
    obtain ⟨n, rfl⟩ : ∃ n, N = n + 1 := ⟨N - 1, by omega⟩
    have hn : (n + 1) - 1 = n := by omega
    rw [hn] at htrig
    have hlt : n < ms.length := by omega
    have htake : ms.take (n + 1) = ms.take n ++ [ms[n]] := by
      rw [List.take_succ, List.getElem?_eq_getElem hlt]
      rfl
    rw [htake, appendAll_append,
      (addMessage_of_gt (appendAll (ms.take n)) _ _ _ htrig).2]
    omega

/-- Witness for C2: appending 2001 identical messages to an empty session
triggers the trim at the 2001st append and leaves exactly
`min 2001 MAX_HISTORY_MESSAGES = 1000` messages stored. -/
theorem add_message_trim_spec_witness :
    (appendAll ((List.replicate 2001 (Message.mk "user" "hi" "t")).take 2001)).length
      = min 2001 MAX_HISTORY_MESSAGES := by
  have hlen : (List.replicate 2000 (Message.mk "user" "hi" "t")).length
      ≤ 2 * MAX_HISTORY_MESSAGES := by
    rw [List.length_replicate]
    decide
  have e1 : (appendAll ((List.replicate 2001 (Message.mk "user" "hi" "t")).take (2001 - 1))).length
      = 2000 := by
    have h1 : (2001 : Nat) - 1 = 2000 := rfl
    have h2 : (2000 : Nat) ⊓ 2001 = 2000 := rfl
    rw [h1, List.take_replicate, h2, appendAll_length_of_le _ hlen, List.length_replicate]
  have htrig : 2 * MAX_HISTORY_MESSAGES
      < (appendAll ((List.replicate 2001 (Message.mk "user" "hi" "t")).take (2001 - 1))).length
        + 1 := by
    rw [e1]
    decide
  have hle : (2001 : Nat) ≤ (List.replicate 2001 (Message.mk "user" "hi" "t")).length := by
    rw [List.length_replicate]
  exact add_message_trim_spec.2 (List.replicate 2001 (Message.mk "user" "hi" "t")) 2001
    hle (by decide) htrig

/-! ### Persistence round-trip (C4) -/

theorem decode_encode_message (m : Message) :
    decodeMessage (encodeMessage m) = some m := rfl

theorem decode_encode_messageList (ms : List Message) :
    decodeMessageList (ms.map encodeMessage) = some ms := by
  induction ms with
  | nil => rfl
  | cons m t ih =>
    rw [List.map_cons]
    unfold decodeMessageList
    rw [decode_encode_message, ih]

theorem decode_encode_fields (s : Sessions) :
    decodeFields (s.map (fun p => (p.1, Json.arr (p.2.map encodeMessage)))) = some s := by
  induction s with
  | nil => rfl
  | cons p t ih =>
    obtain ⟨k, ms⟩ := p
    rw [List.map_cons]
    unfold decodeFields
    rw [decode_encode_messageList, ih]

/-- C4: saving any in-memory session mapping (arbitrary names and message
field values, Unicode strings included, in insertion order) and loading it
back yields exactly the original mapping: same name set and order, same
message order, same role, content and timestamp values. -/
theorem save_load_roundtrip (s : Sessions) :
    decodeSessions (encodeSessions s) = some s := by
  unfold encodeSessions decodeSessions
  exact decode_encode_fields s

/-! ### Orchestrator lemmas (C9, C1) -/

theorem add_message_eq (cm : ChatManager) (r c t : String) (h0 : List Message)
    (hl : cm.sessions.lookup cm.current_session = some h0) :
    cm.add_message r c t
      = some { cm with
          sessions := dictSet cm.sessions cm.current_session (addMessage h0 r c t) } := by
  unfold ChatManager.add_message
  rw [hl]

theorem addMessage_getLast (h : List Message) (r c t : String) :
    (addMessage h r c t).getLast? = some ⟨r, c, t⟩ := by
  unfold addMessage trim_history
  split
  next hgt =>
    have hM : (0 : Nat) < MAX_HISTORY_MESSAGES := by decide
    have hlen : (h ++ [(⟨r, c, t⟩ : Message)]).length = h.length + 1 := by simp
    have hle : (h ++ [(⟨r, c, t⟩ : Message)]).length - MAX_HISTORY_MESSAGES ≤ h.length := by
      rw [hlen]
      omega
    rw [List.drop_append_of_le_length hle, List.getLast?_concat]
  next => exact List.getLast?_concat h

/-- C9: after a successful chat request, the assistant message carrying the
full response text is appended to the current session (it is the last stored
message), the current-session pointer is unchanged, and `save_history` is
triggered if and only if the resulting current-session length is divisible
by 4. -/
theorem send_message_success_spec (cm : ChatManager) (u resp t1 t2 : String)
    (hinv : (cm.sessions.lookup cm.current_session).isSome = true) :
    (send_message_success cm u resp t1 t2).isSome = true
    ∧ ((send_message_success cm u resp t1 t2).getD (cm, false)).1.current_session
        = cm.current_session
    ∧ ((send_message_success cm u resp t1 t2).getD (cm, false)).1.sessions.lookup
          cm.current_session
        = some (addMessage (addMessage ((cm.sessions.lookup cm.current_session).getD [])
            "user" u t1) "assistant" resp t2)
    ∧ (addMessage (addMessage ((cm.sessions.lookup cm.current_session).getD [])
          "user" u t1) "assistant" resp t2).getLast? = some ⟨"assistant", resp, t2⟩
    ∧ (((send_message_success cm u resp t1 t2).getD (cm, false)).2 = true
        ↔ (addMessage (addMessage ((cm.sessions.lookup cm.current_session).getD [])
            "user" u t1) "assistant" resp t2).length % 4 = 0) := by
  obtain ⟨h0, hh0⟩ := Option.isSome_iff_exists.mp hinv
  have e1 := add_message_eq cm "user" u t1 h0 hh0
  have hl1 : ({ cm with
        sessions := dictSet cm.sessions cm.current_session (addMessage h0 "user" u t1) }
          : ChatManager).sessions.lookup
      ({ cm with
        sessions := dictSet cm.sessions cm.current_session (addMessage h0 "user" u t1) }
          : ChatManager).current_session
      = some (addMessage h0 "user" u t1) :=
    lookup_dictSet_self cm.sessions cm.current_session (addMessage h0 "user" u t1)
  have e2 := add_message_eq _ "assistant" resp t2 _ hl1
  unfold send_message_success
  rw [hh0]
  simp only [e1, e2, Option.getD_some, Option.isSome_some, Option.some.injEq]
  refine ⟨trivial, trivial, ?_, addMessage_getLast _ _ _ _, ?_⟩
  · exact lookup_dictSet_self _ _ _
  · rw [show ((dictSet (dictSet cm.sessions cm.current_session (addMessage h0 "user" u t1))
        cm.current_session
        (addMessage (addMessage h0 "user" u t1) "assistant" resp t2)).lookup
          cm.current_session)
      = some (addMessage (addMessage h0 "user" u t1) "assistant" resp t2)
      from lookup_dictSet_self _ _ _]
    simp

/-- Witness for C9 at a concrete state: one user and one assistant message
end up stored; the resulting length 2 is not divisible by 4. -/
theorem send_message_success_spec_witness :
    ((send_message_success (ChatManager.mk [("s", [])] "s") "hi" "ok" "t1" "t2").getD
        (ChatManager.mk [("s", [])] "s", false)).1.sessions.lookup "s"
      = some [Message.mk "user" "hi" "t1", Message.mk "assistant" "ok" "t2"] := by
  have h := (send_message_success_spec (ChatManager.mk [("s", [])] "s")
    "hi" "ok" "t1" "t2" (by rfl)).2.2.1
  exact h

/-! ### Streaming mid-error behavior (C1) -/

theorem midStreamFailure_cons (c : String) (cs : List String) (rest : List StreamEvent) :
    midStreamFailure (c :: cs) rest
      = StreamEvent.chunk (some c) :: midStreamFailure cs rest := rfl

theorem handleStreamFrom_mid (frags : List String) (rest : List StreamEvent) :
    ∀ acc : String, handleStreamFrom acc (midStreamFailure frags rest)
      = (frags.foldl (fun r s => r ++ s) acc, true) := by
  induction frags with
  | nil => intro acc; rfl
  | cons c cs ih =>
    intro acc
    rw [midStreamFailure_cons]
    show handleStreamFrom (acc ++ c) (midStreamFailure cs rest) = _
    rw [ih (acc ++ c)]
    rfl

theorem handle_stream_mid (frags : List String) (rest : List StreamEvent) :
    handle_stream (midStreamFailure frags rest) = (String.join frags, true) := by
  unfold handle_stream
  rw [handleStreamFrom_mid frags rest]
  rfl

/-- C1 (amended): when the Remote Model Service raises mid-stream after
emitting `frags`, the aggregator reports the error and returns exactly the
concatenation of the fragments received so far, and the orchestrator keeps
the appended user message — but, because `_handle_stream` swallows the
exception and `chat` returns the partial text normally, `send_message`
continues on its success path and ALSO appends an assistant message carrying
that partial text (stated here for a session that does not overflow the
retention trim). -/
theorem send_message_streaming_mid_error (frags : List String) (rest : List StreamEvent)
    (cm : ChatManager) (u t1 t2 : String) (h0 : List Message)
    (hl : cm.sessions.lookup cm.current_session = some h0)
    (hlen : h0.length + 2 ≤ 2 * MAX_HISTORY_MESSAGES) :
    handle_stream (midStreamFailure frags rest) = (String.join frags, true)
    ∧ send_message_streaming cm u (midStreamFailure frags rest) t1 t2
      = some ({ cm with
            sessions := dictSet (dictSet cm.sessions cm.current_session
                (h0 ++ [⟨"user", u, t1⟩])) cm.current_session
                (h0 ++ [⟨"user", u, t1⟩, ⟨"assistant", String.join frags, t2⟩]) },
          true, ((h0.length + 2) % 4 == 0)) := by
  refine ⟨handle_stream_mid frags rest, ?_⟩
  have eu : addMessage h0 "user" u t1 = h0 ++ [(⟨"user", u, t1⟩ : Message)] :=
    addMessage_of_le h0 "user" u t1 (by omega)
  have e1 := add_message_eq cm "user" u t1 h0 hl
  rw [eu] at e1
  have hl1 : ({ cm with
        sessions := dictSet cm.sessions cm.current_session
          (h0 ++ [(⟨"user", u, t1⟩ : Message)]) } : ChatManager).sessions.lookup
      ({ cm with
        sessions := dictSet cm.sessions cm.current_session
          (h0 ++ [(⟨"user", u, t1⟩ : Message)]) } : ChatManager).current_session
      = some (h0 ++ [(⟨"user", u, t1⟩ : Message)]) :=
    lookup_dictSet_self cm.sessions cm.current_session _
  have ea : addMessage (h0 ++ [(⟨"user", u, t1⟩ : Message)]) "assistant"
        (String.join frags) t2
      = h0 ++ [⟨"user", u, t1⟩, ⟨"assistant", String.join frags, t2⟩] := by
    rw [addMessage_of_le _ _ _ _ (by simp; omega)]
    simp
  have e2 := add_message_eq _ "assistant" (String.join frags) t2 _ hl1
  rw [ea] at e2
  unfold send_message_streaming
  rw [handle_stream_mid frags rest]
  simp only [e1, e2, Option.some.injEq]
  have hflag : ((dictSet (dictSet cm.sessions cm.current_session
        (h0 ++ [(⟨"user", u, t1⟩ : Message)])) cm.current_session
        (h0 ++ [⟨"user", u, t1⟩, ⟨"assistant", String.join frags, t2⟩])).lookup
          cm.current_session)
      = some (h0 ++ [⟨"user", u, t1⟩, ⟨"assistant", String.join frags, t2⟩]) :=
    lookup_dictSet_self _ _ _
  rw [hflag]
  simp

/-- Witness for C1's amended theorem at a concrete state: the stream emits
"Par" and then raises; the stored session gains the user message and an
assistant message whose content is the partial text "Par", the error is
reported, and no auto-save fires (length 2). -/
theorem send_message_streaming_mid_error_witness :
    send_message_streaming (ChatManager.mk [("s", [])] "s") "Hi"
        (midStreamFailure ["Par"] []) "t1" "t2"
      = some (ChatManager.mk
          [("s", [Message.mk "user" "Hi" "t1", Message.mk "assistant" "Par" "t2"])] "s",
          true, false) := by
  have h := (send_message_streaming_mid_error ["Par"] [] (ChatManager.mk [("s", [])] "s")
    "Hi" "t1" "t2" [] (by rfl) (by decide)).2
  exact h

/-- C1 counterexample: with the stream raising after emitting "Par", the
aggregator does return "Par" and report the error, and the user message is
kept — but an assistant message IS appended (the full state equation shows
it, and the final conjunct exhibits a stored message with role "assistant"),
contradicting the claim that no assistant message is appended for that
request. -/
theorem send_message_streaming_counterexample :
    handle_stream [StreamEvent.chunk (some "Par"), StreamEvent.failure] = ("Par", true)
    ∧ send_message_streaming (ChatManager.mk [("s", [])] "s") "Hi"
        [StreamEvent.chunk (some "Par"), StreamEvent.failure] "t1" "t2"
      = some (ChatManager.mk
          [("s", [Message.mk "user" "Hi" "t1", Message.mk "assistant" "Par" "t2"])] "s",
          true, false)
    ∧ ((((send_message_streaming (ChatManager.mk [("s", [])] "s") "Hi"
          [StreamEvent.chunk (some "Par"), StreamEvent.failure] "t1" "t2").getD
            (ChatManager.mk [] "s", false, false)).1.sessions.lookup "s").getD []).any
        (fun m => m.role == "assistant") = true := by
  refine ⟨rfl, rfl, rfl⟩

end LLMCLI
